import Mathlib

/-!
Verification of the CIVIX-NZ ingestion/retrieval core
(`src/ingestion/processor.py`, `src/retrieval/retriever.py`) against its
natural-language specification.

Modelling conventions (shallow embedding):
* Embedding vectors are opaque payloads; we model them as `List Int`.
  Their numeric content is never inspected by the code under verification.
* The SHA-256 digest of `_get_chunk_hash` is modelled, under the standard
  collision-freedom idealisation of a cryptographic hash, as the tuple of
  the hashed components (the code hashes the string
  `f"{doc_id}:{start}:{end}:{first_64_chars}:{embed_model_name}"`).
  Digest equality is thus component equality.
* Python `dict`s (the manifest, the per-document chunk map, the
  `embedding_map` built during re-assembly) are modelled as insertion-ordered
  association lists.  All dicts in the code are built by item assignment, so
  their keys are duplicate-free and first-binding lookup coincides with
  Python lookup.
* External collaborators (document parser, tokenizer-based chunker, the
  sentence-transformer embedder, the ChromaDB collection, the cross-encoder)
  are oracles supplied in an environment record; a Python exception raised by
  a collaborator (after its own internal retries, where applicable) is an
  `Except.error` carrying `str(e)`.  File-system writes (embedding cache,
  manifest JSON) and the metrics/tracing plumbing are modelled as
  non-failing.
* The pipeline's externally observable side effects are recorded as an
  ordered event trace (chunking, embed-batch calls, cache writes, upsert
  attempts, manifest saves).
-/

namespace Civix

/-- Embedding vectors are opaque payloads produced by the embedding model. -/
abbrev Vec := List Int

/-- The content address of a chunk, `_get_chunk_hash`'s digest.
SHA-256 over `doc_id:start:end:first64:model` is modelled as the tuple of
those components (collision-freedom idealisation). -/
structure ChunkKey where
  doc_id : String
  startPos : Nat
  endPos : Nat
  first64 : String
  model : String
deriving DecidableEq, Repr

/-- `_get_chunk_hash(doc_id, chunk, start, end, embed_model_name)`:
the digest of `doc_id`, `start`, `end`, the chunk's first 64 characters
(`chunk[:64]`), and the embedding model name. -/
def get_chunk_hash (doc_id : String) (chunk : String) (startPos endPos : Nat)
    (embed_model_name : String) : ChunkKey :=
  ⟨doc_id, startPos, endPos, chunk.take 64, embed_model_name⟩

/-- The emptiness test `not text.strip()` of `ingest_document`: true iff
every character of the text is whitespace (equivalently, stripping
whitespace from both ends leaves the empty string).  Python strips the
Unicode whitespace class; `Char.isWhitespace` models its ASCII core. -/
def isBlank (s : String) : Bool := s.data.all Char.isWhitespace

/-- Dict lookup (first binding; dicts built by item assignment are
duplicate-free, so this is Python `d[k]` / `k in d`). -/
def dictLookup {K V : Type} [DecidableEq K] (k : K) : List (K × V) → Option V
  | [] => none
  | p :: ps => if p.1 = k then some p.2 else dictLookup k ps

/-- Python `d[k] = v` on an insertion-ordered dict: overwrite the existing
binding in place, or append a new binding at the end. -/
def dictInsert {K V : Type} [DecidableEq K] (l : List (K × V)) (k : K) (v : V) :
    List (K × V) :=
  match l with
  | [] => [(k, v)]
  | p :: ps => if p.1 = k then (k, v) :: ps else p :: dictInsert ps k v

theorem dictLookup_dictInsert_self {K V : Type} [DecidableEq K]
    (l : List (K × V)) (k : K) (v : V) :
    dictLookup k (dictInsert l k v) = some v := by
  induction l with
  | nil => simp [dictInsert, dictLookup]
  | cons p ps ih =>
    by_cases h : p.1 = k
    · simp [dictInsert, h, dictLookup]
    · simp [dictInsert, h, dictLookup, ih]

theorem dictLookup_dictInsert_ne {K V : Type} [DecidableEq K]
    (l : List (K × V)) (k k' : K) (v : V) (hne : k ≠ k') :
    dictLookup k' (dictInsert l k v) = dictLookup k' l := by
  induction l with
  | nil => simp [dictInsert, dictLookup, hne]
  | cons p ps ih =>
    by_cases h : p.1 = k
    · simp [dictInsert, h, dictLookup, hne]
    · simp only [dictInsert, h, if_neg h, dictLookup]
      by_cases h' : p.1 = k'
      · simp [h']
      · simp [h', ih]

theorem dictLookup_dictInsert_isSome {K V : Type} [DecidableEq K]
    (l : List (K × V)) (k k' : K) (v : V)
    (h : (dictLookup k' l).isSome) :
    (dictLookup k' (dictInsert l k v)).isSome := by
  by_cases hk : k = k'
  · subst hk; simp [dictLookup_dictInsert_self]
  · rwa [dictLookup_dictInsert_ne l k k' v hk]

/-- The per-chunk `metadata` dict built in the scan loop of
`ingest_document` (step 3/4). -/
structure ChunkMeta where
  doc_id : String
  file_path : String
  start_char : Nat
  end_char : Nat
  chunk_hash : ChunkKey
  embed_model : String
deriving DecidableEq, Repr

/-- One value of the manifest's per-document `chunks` dict:
`{"status": ..., "metadata": ...}`. -/
structure ChunkRecord where
  status : String
  metadata : ChunkMeta
deriving DecidableEq, Repr

/-- One value of the manifest dict: `{"status": ..., "chunks": {...}}`,
plus the `error_message` key set only on unhandled exceptions. -/
structure DocEntry where
  status : String
  chunks : List (ChunkKey × ChunkRecord)
  error_message : Option String := none
deriving DecidableEq, Repr

/-- The ingestion manifest: a JSON document keyed by `doc_id`. -/
abbrev Manifest := List (String × DocEntry)

/-- The report dict returned on the success path of `ingest_document`.
`ingest_run_id` (a fresh uuid) and `elapsed_time_seconds` (wall clock) are
nondeterministic and carry no verified content, so they are omitted. -/
structure Report where
  doc_id : String
  status : String
  total_chunks : Nat
  new_embeddings : Nat
  cached_embeddings : Nat
  failed_upserts : Nat
deriving DecidableEq, Repr

/-- The value returned by `ingest_document`: either the full report dict, or
the early-return dict `{"status": "failed", "reason": ...}` produced on the
empty-document path and in the exception handler. -/
inductive IngestResult where
  | report (r : Report)
  | failure (reason : String)
deriving DecidableEq, Repr

/-- The `"status"` field of the returned dict. -/
def IngestResult.statusField : IngestResult → String
  | .report r => r.status
  | .failure _ => "failed"

/-- Externally observable side effects of one ingestion run, in order. -/
inductive Event where
  | chunked (n : Nat)
  | embedBatch (texts : List String)
  | cacheWrite (k : ChunkKey) (v : Vec)
  | upsertAttempt (ids : List ChunkKey) (embs : List Vec)
  | manifestSave (m : Manifest)
deriving DecidableEq, Repr

/-- The collaborators and configuration of one ingestion run.
`parse` is `_parse_document`; `chunk` is `_chunk_text` (tokenizer-dependent);
`embed` is `_embed_batch` after its own internal retries; `upsertOutcome n`
says whether the `n`-th raw `collection.upsert` attempt (1-based) succeeds;
`batchSize` is `BATCH_SIZE`; `embed_model` is `EMBED_MODEL`. -/
structure Env where
  parse : String → Except String String
  chunk : String → Except String (List (String × Nat × Nat))
  embed : List String → Except String (List Vec)
  upsertOutcome : Nat → Bool
  batchSize : Nat
  embed_model : String

/-- Structural worker for `toBatches`: `fuel ≥ l.length` suffices, since a
positive `B` drops at least one element per step. -/
def toBatchesAux {α : Type} (fuel B : Nat) (l : List α) : List (List α) :=
  match fuel with
  | 0 => []
  | fuel + 1 =>
    if l.isEmpty then []
    else if B = 0 then []
    else l.take B :: toBatchesAux fuel B (l.drop B)

/-- Python `range(0, len(l), B)` slicing: `l[i:i+B]` for each step.
`B = 0` would raise `ValueError` in Python before producing any batch; we
return no batches in that unreachable configuration (`BATCH_SIZE ≥ 1`). -/
def toBatches {α : Type} (B : Nat) (l : List α) : List (List α) :=
  toBatchesAux l.length B l

/-- The batch loop of step 5: embed each batch in turn, extending
`generated_embeddings`; a batch failure propagates to the exception
handler.  Returns the `embed_batch` call events plus the outcome. -/
def embedBatches (embed : List String → Except String (List Vec)) :
    List (List String) → List Event × Except String (List Vec)
  | [] => ([], .ok [])
  | b :: bs =>
    match embed b with
    | .error e => ([Event.embedBatch b], .error e)
    | .ok vs =>
      let rest := embedBatches embed bs
      (Event.embedBatch b :: rest.1,
        match rest.2 with
        | .error e => .error e
        | .ok vss => .ok (vs ++ vss))

/-- The `embedding_map` dict comprehension: later bindings of the same
chunk hash overwrite earlier ones. -/
def buildMap (pairs : List (ChunkKey × Vec)) : List (ChunkKey × Vec) :=
  pairs.foldl (fun acc p => dictInsert acc p.1 p.2) []

/-- The re-assembly loop of step 5: for each chunk metadata in original
order take the newly computed vector if its hash is in `embedding_map`,
otherwise consume the next cached vector (`temp_embeddings[cached_idx]`).
`none` models the `IndexError` raised when the cached list is exhausted. -/
def reassemble (emap : List (ChunkKey × Vec)) :
    List ChunkMeta → List Vec → Option (List Vec)
  | [], _ => some []
  | m :: ms, temp =>
    match dictLookup m.chunk_hash emap with
    | some v => (reassemble emap ms temp).map (v :: ·)
    | none =>
      match temp with
      | [] => none
      | t :: ts => (reassemble emap ms ts).map (t :: ·)

/-- The metadata dict built for one `(chunk_text, start_pos, end_pos)`. -/
def metaOf (doc_id file_path model : String) (c : String × Nat × Nat) :
    ChunkMeta :=
  { doc_id := doc_id, file_path := file_path,
    start_char := c.2.1, end_char := c.2.2,
    chunk_hash := get_chunk_hash doc_id c.1 c.2.1 c.2.2 model,
    embed_model := model }

/-- `all_chunk_embeddings` as left by the scan loop: the cached vectors of
the cache-hit chunks, in original chunk order. -/
def hitVecs (cache0 : ChunkKey → Option Vec) (doc_id file_path model : String)
    (chunks : List (String × Nat × Nat)) : List Vec :=
  chunks.filterMap (fun c => cache0 (metaOf doc_id file_path model c).chunk_hash)

/-- The cache-miss chunks, in original order (the scan loop appends each
miss to `chunks_to_embed_texts` / `chunks_to_embed_metadata`). -/
def missChunks (cache0 : ChunkKey → Option Vec)
    (doc_id file_path model : String)
    (chunks : List (String × Nat × Nat)) : List (String × Nat × Nat) :=
  chunks.filter (fun c => (cache0 (metaOf doc_id file_path model c).chunk_hash).isNone)

/-- `_upsert_to_chroma` under `backoff(max_tries=2)`: attempt 1; on failure
attempt 2; on failure the exception propagates (`false`). -/
def upsertWithRetry (outcome : Nat → Bool) (ids : List ChunkKey)
    (embs : List Vec) : List Event × Bool :=
  if outcome 1 then ([.upsertAttempt ids embs], true)
  else if outcome 2 then
    ([.upsertAttempt ids embs, .upsertAttempt ids embs], true)
  else ([.upsertAttempt ids embs, .upsertAttempt ids embs], false)

/-- `if doc_id not in manifest: manifest[doc_id] = {"status": "processing",
"chunks": {}}`. -/
def ensureDoc (m : Manifest) (doc_id : String) : Manifest :=
  match dictLookup doc_id m with
  | some _ => m
  | none => dictInsert m doc_id { status := "processing", chunks := [] }

/-- In-place mutation of the (unique) manifest entry of `doc_id`. -/
def mapDoc (m : Manifest) (doc_id : String) (f : DocEntry → DocEntry) :
    Manifest :=
  m.map (fun p => if p.1 = doc_id then (p.1, f p.2) else p)

/-- `manifest[doc_id]["status"] = s` (mutates the entry in place). -/
def setDocStatus (m : Manifest) (doc_id s : String) : Manifest :=
  mapDoc m doc_id (fun entry => { entry with status := s })

/-- `manifest[doc_id]["error_message"] = msg`. -/
def setDocError (m : Manifest) (doc_id msg : String) : Manifest :=
  mapDoc m doc_id (fun entry => { entry with error_message := some msg })

/-- `manifest[doc_id]["chunks"][k] = r`. -/
def setDocChunk (m : Manifest) (doc_id : String) (k : ChunkKey)
    (r : ChunkRecord) : Manifest :=
  mapDoc m doc_id (fun entry =>
    { entry with chunks := dictInsert entry.chunks k r })

/-- The manifest-update loop of step 7.  `failed_upsert_hashes` is either
empty or the set of *all* chunk hashes, so the per-chunk membership test
`chunk_hash in failed_upsert_hashes` collapses to the boolean `failed`. -/
def recordChunks (m : Manifest) (doc_id : String) (failed : Bool)
    (metas : List ChunkMeta) : Manifest :=
  metas.foldl
    (fun acc mt =>
      setDocChunk acc doc_id mt.chunk_hash
        ⟨if failed then "upsert_failed" else "completed", mt⟩)
    m

/-- The observable outcome of one `ingest_document` call: the returned
dict, the ordered event trace, and the manifest contents as last written
to disk. -/
structure RunOut where
  result : IngestResult
  events : List Event
  finalManifest : Manifest
deriving Repr

/-- The exception handler of `ingest_document`: record status `failed` and
the exception message, persist the manifest, and return the failure dict. -/
def failRun (manifest1 : Manifest) (doc_id : String) (preEvents : List Event)
    (e : String) : RunOut :=
  let m := setDocError (setDocStatus manifest1 doc_id "failed") doc_id e
  ⟨.failure e, preEvents ++ [.manifestSave m], m⟩

/-- Steps 6–8 of `ingest_document`: the single whole-document upsert with
bounded retry, the manifest chunk/status updates, the manifest save, and
the report. -/
def upsertPhase (env : Env) (manifest1 : Manifest) (doc_id : String)
    (preEvents : List Event) (metas : List ChunkMeta) (allEmb : List Vec)
    (newCount : Nat) : RunOut :=
  let hashes := metas.map (·.chunk_hash)
  let up :=
    if hashes.isEmpty then ([], [])
    else
      let r := upsertWithRetry env.upsertOutcome hashes allEmb
      (r.1, if r.2 then [] else hashes.dedup)
  let failedSet := up.2
  let m2 := recordChunks manifest1 doc_id (!failedSet.isEmpty) metas
  let finalStatus := if failedSet.isEmpty then "completed" else "completed_with_errors"
  let m3 := setDocStatus m2 doc_id finalStatus
  let report : Report :=
    { doc_id := doc_id, status := finalStatus,
      total_chunks := hashes.length,
      new_embeddings := newCount,
      cached_embeddings := hashes.length - newCount,
      failed_upserts := failedSet.length }
  ⟨.report report, preEvents ++ up.1 ++ [.manifestSave m3], m3⟩

/-- Steps 5–8 of `ingest_document` once the embed step has produced
`generated` vectors for the cache-miss chunks: cache writes, re-assembly,
upsert and manifest update. -/
def mergePhase (env : Env) (cache0 : ChunkKey → Option Vec)
    (manifest1 : Manifest) (file_path doc_id : String)
    (chunks : List (String × Nat × Nat)) (embEvs : List Event)
    (generated : List Vec) : RunOut :=
  let model := env.embed_model
  let metas := chunks.map (metaOf doc_id file_path model)
  let cachedVecs := hitVecs cache0 doc_id file_path model chunks
  let toEmbed := missChunks cache0 doc_id file_path model chunks
  let toEmbedMetas := toEmbed.map (metaOf doc_id file_path model)
  let chunkEv := Event.chunked chunks.length
  let cacheEvs := ((toEmbedMetas.map (·.chunk_hash)).zip generated).map
    (fun p => Event.cacheWrite p.1 p.2)
  if toEmbedMetas.length < generated.length then
    -- `chunks_to_embed_metadata[i]` raises `IndexError` when the embedder
    -- returned more vectors than texts.
    failRun manifest1 doc_id (chunkEv :: embEvs ++ cacheEvs)
      "list index out of range"
  else
    let emap := buildMap ((toEmbedMetas.map (·.chunk_hash)).zip generated)
    match reassemble emap metas cachedVecs with
    | none =>
      failRun manifest1 doc_id (chunkEv :: embEvs ++ cacheEvs)
        "list index out of range"
    | some allEmb =>
      upsertPhase env manifest1 doc_id (chunkEv :: embEvs ++ cacheEvs)
        metas allEmb (toEmbed.map (·.1)).length

/-- Steps 3–8 of `ingest_document`, applied to the chunk list: hashing and
cache lookup, batch embedding, cache write-through, re-assembly, upsert
and manifest update. -/
def embedPhase (env : Env) (cache0 : ChunkKey → Option Vec)
    (manifest1 : Manifest) (file_path doc_id : String)
    (chunks : List (String × Nat × Nat)) : RunOut :=
  let model := env.embed_model
  let metas := chunks.map (metaOf doc_id file_path model)
  let cachedVecs := hitVecs cache0 doc_id file_path model chunks
  let toEmbed := missChunks cache0 doc_id file_path model chunks
  let toEmbedTexts := toEmbed.map (·.1)
  let chunkEv := Event.chunked chunks.length
  if toEmbedTexts.isEmpty then
    upsertPhase env manifest1 doc_id [chunkEv] metas cachedVecs 0
  else
    let eb := embedBatches env.embed (toBatches env.batchSize toEmbedTexts)
    match eb.2 with
    | .error e => failRun manifest1 doc_id (chunkEv :: eb.1) e
    | .ok generated =>
      mergePhase env cache0 manifest1 file_path doc_id chunks eb.1 generated

/-- `ingest_document(file_path, doc_id)` over the collaborators in `env`,
the embedding-cache contents `cache0` and the manifest `manifest0` loaded
from disk. -/
def ingest_document (env : Env) (cache0 : ChunkKey → Option Vec)
    (manifest0 : Manifest) (file_path doc_id : String) : RunOut :=
  let manifest1 := ensureDoc manifest0 doc_id
  match env.parse file_path with
  | .error e => failRun manifest1 doc_id [] e
  | .ok text =>
    if isBlank text then
      let m := setDocStatus manifest1 doc_id "failed_empty"
      ⟨.failure "empty document", [.manifestSave m], m⟩
    else
      match env.chunk text with
      | .error e => failRun manifest1 doc_id [] e
      | .ok chunks => embedPhase env cache0 manifest1 file_path doc_id chunks

/-- One candidate returned by `collection.query` and re-formatted into
`initial_chunks`: `{"id", "distance", "document", "metadata"}`.  The
`distance` is an opaque similarity payload (never compared by the
retriever), modelled as `Int`; the metadata payload is irrelevant to the
retrieval claims and omitted. -/
structure Candidate where
  id : String
  distance : Int
  document : String
deriving DecidableEq, Repr

/-- Collaborators of `query_collection`: the ChromaDB collection (given the
`n_results` argument, it returns the ranked candidate list) and the
cross-encoder score of a `(query, document)` pair.  Cross-encoder scores
are floats used only as sort keys; we model them in an arbitrary linear
order (`Int`). -/
structure REnv where
  index : Int → List Candidate
  score : String → String → Int

/-- Python list slicing `l[:k]` for an arbitrary (possibly negative) `k`. -/
def pythonTake {α : Type} (k : Int) (l : List α) : List α :=
  if 0 ≤ k then l.take k.toNat else l.take (l.length - (-k).toNat)

/-- `initial_retrieval_k = max(top_k, rerank_k * 3)` (retriever line 78). -/
def initial_retrieval_k (top_k rerank_k : Int) : Int :=
  max top_k (rerank_k * 3)

/-- Outcome of one retrieval call: the `n_results` value requested from the
vector index, and the returned chunk list. -/
structure QueryOut where
  requested : Int
  result : List Candidate
deriving DecidableEq, Repr

/-- Descending-by-score comparison used to model
`sorted(zip(initial_chunks, re_rank_scores), key=lambda x: x[1],
reverse=True)`.  Python's `sorted` is a stable sort, as is
`List.mergeSort`, and any two stable sorts under the same total preorder
agree, so `mergeSort` with this relation is the exact Python result. -/
def descByScore (env : REnv) (query_text : String) (a b : Candidate) : Bool :=
  decide (env.score query_text b.document ≤ env.score query_text a.document)

/-- `query_collection(query_text, top_k, rerank_k)`. -/
def query_collection (env : REnv) (query_text : String)
    (top_k rerank_k : Int) : QueryOut :=
  let initial_k := initial_retrieval_k top_k rerank_k
  let candidates := env.index initial_k
  if candidates.isEmpty then ⟨initial_k, []⟩
  else if rerank_k < (candidates.length : Int) ∧ 0 < rerank_k then
    ⟨initial_k,
      pythonTake rerank_k (candidates.mergeSort (descByScore env query_text))⟩
  else ⟨initial_k, pythonTake rerank_k candidates⟩

/-- Claim C5: the chunk key is pure and deterministic, depending only on
`(doc_id, start, end, first 64 characters of the text, embedding model)`:
two chunks agreeing on those five components receive the same key even if
their texts differ after character 64. -/
theorem chunk_key_depends_only_on_first64 (doc_id c1 c2 : String)
    (startPos endPos : Nat) (model : String)
    (h : c1.take 64 = c2.take 64) :
    get_chunk_hash doc_id c1 startPos endPos model
      = get_chunk_hash doc_id c2 startPos endPos model := by
  simp [get_chunk_hash, h]

set_option maxRecDepth 4096 in
theorem chunk_key_depends_only_on_first64_witness :
    ("aaaaaaaaaaaaaaaaaaaaaaaaaaaaaaaaaaaaaaaaaaaaaaaaaaaaaaaaaaaaaaaaXYZ" :
        String).take 64
      = ("aaaaaaaaaaaaaaaaaaaaaaaaaaaaaaaaaaaaaaaaaaaaaaaaaaaaaaaaaaaaaaaaPQR" :
        String).take 64 ∧
    get_chunk_hash "doc1"
        "aaaaaaaaaaaaaaaaaaaaaaaaaaaaaaaaaaaaaaaaaaaaaaaaaaaaaaaaaaaaaaaaXYZ"
        0 68 "all-MiniLM-L6-v2"
      = get_chunk_hash "doc1"
        "aaaaaaaaaaaaaaaaaaaaaaaaaaaaaaaaaaaaaaaaaaaaaaaaaaaaaaaaaaaaaaaaPQR"
        0 68 "all-MiniLM-L6-v2" :=
  ⟨by decide, chunk_key_depends_only_on_first64 "doc1" _ _ 0 68 "all-MiniLM-L6-v2"
    (by decide)⟩

/-- Claim C6: for every retrieval call with `top_k > 0` and `rerank_k > 0`,
the number of candidates requested from the vector index before reranking
is `max(top_k, rerank_k * 3)`. -/
theorem retrieval_oversampling (env : REnv) (query_text : String)
    (top_k rerank_k : Int) (ht : 0 < top_k) (hr : 0 < rerank_k) :
    (query_collection env query_text top_k rerank_k).requested
      = max top_k (rerank_k * 3) := by
  unfold query_collection
  dsimp only
  split_ifs <;> rfl

theorem retrieval_oversampling_witness :
    (0 : Int) < 5 ∧ (0 : Int) < 3 ∧
    (query_collection ⟨fun _ => [], fun _ _ => 0⟩ "q" 5 3).requested
      = max 5 (3 * 3) :=
  ⟨by decide, by decide,
    retrieval_oversampling ⟨fun _ => [], fun _ _ => 0⟩ "q" 5 3
      (by decide) (by decide)⟩

theorem pythonTake_nonneg {α : Type} (k : Int) (hk : 0 ≤ k) (l : List α) :
    pythonTake k l = l.take k.toNat := by
  simp [pythonTake, hk]

theorem length_take_le_int {α : Type} (k : Int) (hk : 0 ≤ k) (l : List α) :
    (((l.take k.toNat).length : Int)) ≤ k := by
  have h2 : (l.take k.toNat).length ≤ k.toNat := by
    rw [List.length_take]; exact Nat.min_le_left _ _
  omega

/-- A retrieval environment whose index holds two candidates; the
cross-encoder scores are constant. -/
def negRerankEnv : REnv :=
  ⟨fun _ => [⟨"id1", 0, "docA"⟩, ⟨"id2", 0, "docB"⟩], fun _ _ => 0⟩

/-- Claim C7 is false as stated: a retrieval call is possible with a
negative `rerank_k` (the HTTP API field is an unconstrained `int`), and
then Python's `initial_chunks[:rerank_k]` drops elements from the *end*
instead of bounding the length, so the returned sequence has length `1`,
which is not `≤ rerank_k = -1`. -/
theorem retrieval_rerank_counterexample :
    (query_collection negRerankEnv "q" 5 (-1)).result
        = [⟨"id1", 0, "docA"⟩] ∧
    ¬ (((query_collection negRerankEnv "q" 5 (-1)).result.length : Int)
        ≤ (-1 : Int)) := by
  constructor
  · rfl
  · decide

/-- Claim C7, amended: for every retrieval call with `rerank_k ≥ 0`, the
returned sequence has length ≤ `rerank_k`; when the index returns more
than `rerank_k` candidates and `rerank_k > 0`, the result is the first
`rerank_k` candidates of a permutation of the candidates sorted in
descending order of cross-encoder score (the stable sort of the code);
otherwise the result is the first `rerank_k` candidates in original
vector-similarity order. -/
theorem retrieval_rerank (env : REnv) (q : String) (top_k rerank_k : Int)
    (hr : 0 ≤ rerank_k) :
    (((query_collection env q top_k rerank_k).result.length : Int) ≤ rerank_k) ∧
    ((rerank_k < ((env.index (initial_retrieval_k top_k rerank_k)).length : Int)
        ∧ 0 < rerank_k) →
      ∃ l : List Candidate,
        l.Perm (env.index (initial_retrieval_k top_k rerank_k)) ∧
        l.Pairwise (fun a b => env.score q b.document ≤ env.score q a.document) ∧
        (query_collection env q top_k rerank_k).result = l.take rerank_k.toNat) ∧
    (¬ (rerank_k < ((env.index (initial_retrieval_k top_k rerank_k)).length : Int)
        ∧ 0 < rerank_k) →
      (query_collection env q top_k rerank_k).result
        = (env.index (initial_retrieval_k top_k rerank_k)).take rerank_k.toNat) := by
  have htrans : ∀ a b c, descByScore env q a b = true →
      descByScore env q b c = true → descByScore env q a c = true := by
    intro a b c hab hbc
    simp only [descByScore, decide_eq_true_eq] at *
    omega
  have htot : ∀ a b, (descByScore env q a b || descByScore env q b a) = true := by
    intro a b
    simp only [descByScore, Bool.or_eq_true, decide_eq_true_eq]
    exact Int.le_total _ _
  unfold query_collection
  dsimp only
  split_ifs with h0 h1
  · -- zero candidates
    refine ⟨by simpa using hr, ?_, ?_⟩
    · intro ⟨ha, hb⟩
      exfalso
      rw [List.isEmpty_iff] at h0
      rw [h0] at ha
      simp at ha
      omega
    · intro _
      rw [List.isEmpty_iff] at h0
      simp [h0]
  · -- rerank branch
    rw [pythonTake_nonneg _ hr]
    refine ⟨length_take_le_int _ hr _, ?_, ?_⟩
    · intro _
      refine ⟨(env.index (initial_retrieval_k top_k rerank_k)).mergeSort
          (descByScore env q), List.mergeSort_perm _ _, ?_, rfl⟩
      have := List.sorted_mergeSort htrans htot
        (env.index (initial_retrieval_k top_k rerank_k))
      exact this.imp (by intro a b hab; simpa [descByScore] using hab)
    · intro hcon; exact absurd h1 hcon
  · -- no-rerank branch
    rw [pythonTake_nonneg _ hr]
    exact ⟨length_take_le_int _ hr _, fun hcond => absurd hcond h1, fun _ => rfl⟩

/-- A retrieval environment with three candidates and distinct scores. -/
def rerankWitnessEnv : REnv :=
  ⟨fun _ => [⟨"id1", 0, "docA"⟩, ⟨"id2", 0, "docB"⟩, ⟨"id3", 0, "docC"⟩],
    fun _ d => if d = "docB" then 7 else 1⟩

theorem retrieval_rerank_witness :
    ((0 : Int) ≤ 1) ∧
    ((((query_collection rerankWitnessEnv "q" 1 1).result.length : Int) ≤ 1) ∧
    ((1 < ((rerankWitnessEnv.index (initial_retrieval_k 1 1)).length : Int)
        ∧ (0 : Int) < 1) →
      ∃ l : List Candidate,
        l.Perm (rerankWitnessEnv.index (initial_retrieval_k 1 1)) ∧
        l.Pairwise
          (fun a b => rerankWitnessEnv.score "q" b.document
            ≤ rerankWitnessEnv.score "q" a.document) ∧
        (query_collection rerankWitnessEnv "q" 1 1).result
          = l.take (1 : Int).toNat) ∧
    (¬ (1 < ((rerankWitnessEnv.index (initial_retrieval_k 1 1)).length : Int)
        ∧ (0 : Int) < 1) →
      (query_collection rerankWitnessEnv "q" 1 1).result
        = (rerankWitnessEnv.index (initial_retrieval_k 1 1)).take
            (1 : Int).toNat)) :=
  ⟨by decide, retrieval_rerank rerankWitnessEnv "q" 1 1 (by decide)⟩

theorem dictLookup_mapDoc_self (m : Manifest) (doc : String)
    (f : DocEntry → DocEntry) :
    dictLookup doc (mapDoc m doc f) = (dictLookup doc m).map f := by
  induction m with
  | nil => simp [mapDoc, dictLookup]
  | cons p ps ih =>
    simp only [mapDoc, List.map_cons] at ih ⊢
    by_cases h : p.1 = doc
    · simp [dictLookup, h]
    · simp [dictLookup, h, ih]

theorem dictLookup_mapDoc_ne (m : Manifest) (doc doc' : String)
    (f : DocEntry → DocEntry) (h : doc' ≠ doc) :
    dictLookup doc' (mapDoc m doc f) = dictLookup doc' m := by
  induction m with
  | nil => simp [mapDoc, dictLookup]
  | cons p ps ih =>
    simp only [mapDoc, List.map_cons] at ih ⊢
    by_cases hp : p.1 = doc
    · simp [dictLookup, hp, Ne.symm h, ih]
    · by_cases hq : p.1 = doc'
      · simp [dictLookup, hp, hq, h]
      · simp [dictLookup, hp, hq, ih]

theorem dictLookup_ensureDoc_isSome (m : Manifest) (doc : String) :
    (dictLookup doc (ensureDoc m doc)).isSome := by
  unfold ensureDoc
  cases h : dictLookup doc m with
  | some e => simp [h]
  | none => simp [dictLookup_dictInsert_self]

theorem dictLookup_ensureDoc_ne (m : Manifest) (doc doc' : String)
    (h : doc' ≠ doc) :
    dictLookup doc' (ensureDoc m doc) = dictLookup doc' m := by
  unfold ensureDoc
  cases hd : dictLookup doc m with
  | some e => rfl
  | none => exact dictLookup_dictInsert_ne m doc doc' _ (fun hc => h hc.symm)

theorem dictLookup_recordChunks_ne (doc doc' : String) (h : doc' ≠ doc)
    (failed : Bool) (metas : List ChunkMeta) :
    ∀ m : Manifest,
      dictLookup doc' (recordChunks m doc failed metas) = dictLookup doc' m := by
  induction metas with
  | nil => intro m; rfl
  | cons mt ms ih =>
    intro m
    show dictLookup doc' (recordChunks (setDocChunk m doc _ _) doc failed ms) = _
    rw [ih, setDocChunk, dictLookup_mapDoc_ne _ _ _ _ h]

theorem dictLookup_setDocStatus_ne (m : Manifest) (doc doc' s : String)
    (h : doc' ≠ doc) :
    dictLookup doc' (setDocStatus m doc s) = dictLookup doc' m :=
  dictLookup_mapDoc_ne m doc doc' _ h

theorem dictLookup_setDocError_ne (m : Manifest) (doc doc' msg : String)
    (h : doc' ≠ doc) :
    dictLookup doc' (setDocError m doc msg) = dictLookup doc' m :=
  dictLookup_mapDoc_ne m doc doc' _ h

def Event.isUpsert : Event → Bool
  | .upsertAttempt _ _ => true
  | _ => false

def Event.isCache : Event → Bool
  | .cacheWrite _ _ => true
  | _ => false

def Event.isEmbed : Event → Bool
  | .embedBatch _ => true
  | _ => false

def Event.isSave : Event → Bool
  | .manifestSave _ => true
  | _ => false

theorem embedBatches_events (f : List String → Except String (List Vec)) :
    ∀ bs : List (List String), ∀ ev ∈ (embedBatches f bs).1, ev.isEmbed = true := by
  intro bs
  induction bs with
  | nil => intro ev hev; simp [embedBatches] at hev
  | cons b bs ih =>
    intro ev hev
    unfold embedBatches at hev
    cases hf : f b with
    | error e =>
      rw [hf] at hev
      simp only [List.mem_singleton] at hev
      subst hev; rfl
    | ok vs =>
      rw [hf] at hev
      simp only [List.mem_cons] at hev
      rcases hev with rfl | hev
      · rfl
      · exact ih ev hev

theorem isUpsert_eq_false_of_isEmbed (ev : Event) (h : ev.isEmbed = true) :
    ev.isUpsert = false := by
  cases ev <;> simp [Event.isEmbed, Event.isUpsert] at *

theorem mergePhase_cases (env : Env) (cache0 : ChunkKey → Option Vec)
    (manifest1 : Manifest) (file_path doc_id : String)
    (chunks : List (String × Nat × Nat)) (embEvs : List Event)
    (generated : List Vec) (P : RunOut → Prop)
    (hfail : ∀ pre e, (∀ ev ∈ pre, ev.isUpsert = false) →
      P (failRun manifest1 doc_id pre e))
    (hupsert : ∀ pre metas allEmb n, (∀ ev ∈ pre, ev.isUpsert = false) →
      P (upsertPhase env manifest1 doc_id pre metas allEmb n))
    (hembEvs : ∀ ev ∈ embEvs, ev.isUpsert = false) :
    P (mergePhase env cache0 manifest1 file_path doc_id chunks embEvs generated) := by
  have hpre : ∀ cws : List (ChunkKey × Vec),
      ∀ ev ∈ (Event.chunked chunks.length) :: embEvs
        ++ cws.map (fun p => Event.cacheWrite p.1 p.2),
        ev.isUpsert = false := by
    intro cws ev hev
    rcases List.mem_cons.mp hev with rfl | hev
    · rfl
    · rcases List.mem_append.mp hev with hev | hev
      · exact hembEvs ev hev
      · rcases List.mem_map.mp hev with ⟨p, _, rfl⟩
        rfl
  unfold mergePhase
  dsimp only
  split
  · exact hfail _ _ (hpre _)
  · split
    · exact hfail _ _ (hpre _)
    · exact hupsert _ _ _ _ (hpre _)

theorem embedPhase_cases (env : Env) (cache0 : ChunkKey → Option Vec)
    (manifest1 : Manifest) (file_path doc_id : String)
    (chunks : List (String × Nat × Nat)) (P : RunOut → Prop)
    (hfail : ∀ pre e, (∀ ev ∈ pre, ev.isUpsert = false) →
      P (failRun manifest1 doc_id pre e))
    (hupsert : ∀ pre metas allEmb n, (∀ ev ∈ pre, ev.isUpsert = false) →
      P (upsertPhase env manifest1 doc_id pre metas allEmb n)) :
    P (embedPhase env cache0 manifest1 file_path doc_id chunks) := by
  unfold embedPhase
  dsimp only
  split
  · exact hupsert _ _ _ _
      (by intro ev hev; rcases List.mem_singleton.mp hev with rfl; rfl)
  · have hemb : ∀ bs : List (List String),
        ∀ ev ∈ (Event.chunked chunks.length) :: (embedBatches env.embed bs).1,
          ev.isUpsert = false := by
      intro bs ev hev
      rcases List.mem_cons.mp hev with rfl | hev
      · rfl
      · exact isUpsert_eq_false_of_isEmbed ev (embedBatches_events env.embed bs ev hev)
    split
    · exact hfail _ _ (hemb _)
    · exact mergePhase_cases env cache0 manifest1 file_path doc_id chunks _ _ P
        hfail hupsert
        (fun ev hev =>
          isUpsert_eq_false_of_isEmbed ev (embedBatches_events env.embed _ ev hev))

/-- Every run of `ingest_document` ends in one of three ways: the exception
handler (`failRun`), the empty-document early return, or the upsert phase;
in the first and third cases the events before that point contain no
upsert attempt. -/
theorem run_cases (env : Env) (cache0 : ChunkKey → Option Vec)
    (manifest0 : Manifest) (file_path doc_id : String) (P : RunOut → Prop)
    (hfail : ∀ pre e, (∀ ev ∈ pre, ev.isUpsert = false) →
      P (failRun (ensureDoc manifest0 doc_id) doc_id pre e))
    (hempty : P ⟨.failure "empty document",
      [.manifestSave (setDocStatus (ensureDoc manifest0 doc_id) doc_id "failed_empty")],
      setDocStatus (ensureDoc manifest0 doc_id) doc_id "failed_empty"⟩)
    (hupsert : ∀ pre metas allEmb n, (∀ ev ∈ pre, ev.isUpsert = false) →
      P (upsertPhase env (ensureDoc manifest0 doc_id) doc_id pre metas allEmb n)) :
    P (ingest_document env cache0 manifest0 file_path doc_id) := by
  unfold ingest_document
  cases hp : env.parse file_path with
  | error e => exact hfail [] e (by intro ev hev; simp at hev)
  | ok text =>
    dsimp only
    split
    · exact hempty
    · cases hc : env.chunk text with
      | error e => exact hfail [] e (by intro ev hev; simp at hev)
      | ok chunks =>
        exact embedPhase_cases env cache0 _ file_path doc_id chunks P hfail hupsert

theorem failRun_finalManifest (m1 : Manifest) (doc : String) (pre : List Event)
    (e : String) :
    (failRun m1 doc pre e).finalManifest
      = setDocError (setDocStatus m1 doc "failed") doc e := rfl

theorem upsertPhase_finalManifest_shape (env : Env) (m1 : Manifest)
    (doc : String) (pre : List Event) (metas : List ChunkMeta)
    (allEmb : List Vec) (n : Nat) :
    ∃ (failed : Bool) (s : String),
      (upsertPhase env m1 doc pre metas allEmb n).finalManifest
        = setDocStatus (recordChunks m1 doc failed metas) doc s := by
  unfold upsertPhase
  exact ⟨_, _, rfl⟩

/-- Claim C9: a single ingestion call for `doc_id` modifies only the
manifest entry of `doc_id`: for every other `doc_id'`, the entry persisted
at the end of the run is exactly the entry that was loaded. -/
theorem ingest_manifest_frame (env : Env) (cache0 : ChunkKey → Option Vec)
    (manifest0 : Manifest) (file_path doc_id doc' : String)
    (h : doc' ≠ doc_id) :
    dictLookup doc'
        (ingest_document env cache0 manifest0 file_path doc_id).finalManifest
      = dictLookup doc' manifest0 := by
  have hEns := dictLookup_ensureDoc_ne manifest0 doc_id doc' h
  refine run_cases env cache0 manifest0 file_path doc_id
    (fun out => dictLookup doc' out.finalManifest = dictLookup doc' manifest0)
    ?_ ?_ ?_
  · intro pre e _
    rw [failRun_finalManifest, dictLookup_setDocError_ne _ _ _ _ h,
      dictLookup_setDocStatus_ne _ _ _ _ h, hEns]
  · show dictLookup doc'
        (setDocStatus (ensureDoc manifest0 doc_id) doc_id "failed_empty") = _
    rw [dictLookup_setDocStatus_ne _ _ _ _ h, hEns]
  · intro pre metas allEmb n _
    obtain ⟨failed, s, hm⟩ :=
      upsertPhase_finalManifest_shape env (ensureDoc manifest0 doc_id) doc_id
        pre metas allEmb n
    rw [hm, dictLookup_setDocStatus_ne _ _ _ _ h,
      dictLookup_recordChunks_ne doc_id doc' h failed metas _, hEns]

/-- A two-document manifest loaded from disk: `other_doc` was ingested
earlier; `doc1` is now re-ingested. -/
def frameManifest : Manifest :=
  [("other_doc", { status := "completed", chunks := [] }),
   ("doc1", { status := "completed", chunks := [] })]

/-- An environment whose parse step fails (the branch does not matter for
the frame property). -/
def frameEnv : Env :=
  ⟨fun _ => .error "io error", fun _ => .ok [], fun _ => .ok [],
    fun _ => true, 64, "all-MiniLM-L6-v2"⟩

theorem ingest_manifest_frame_witness :
    ("other_doc" ≠ "doc1") ∧
    dictLookup "other_doc"
        (ingest_document frameEnv (fun _ => none) frameManifest
          "f.txt" "doc1").finalManifest
      = dictLookup "other_doc" frameManifest :=
  ⟨by decide,
    ingest_manifest_frame frameEnv (fun _ => none) frameManifest "f.txt" "doc1"
      "other_doc" (by decide)⟩

theorem ensureDoc_of_lookup_some (m : Manifest) (doc : String)
    (entry : DocEntry) (h : dictLookup doc m = some entry) :
    ensureDoc m doc = m := by
  simp [ensureDoc, h]

theorem recordChunks_preserves_chunkKey (doc : String) (failed : Bool)
    (k : ChunkKey) :
    ∀ (metas : List ChunkMeta) (m : Manifest) (entry : DocEntry),
      dictLookup doc m = some entry → (dictLookup k entry.chunks).isSome →
      ∃ entry', dictLookup doc (recordChunks m doc failed metas) = some entry' ∧
        (dictLookup k entry'.chunks).isSome := by
  intro metas
  induction metas with
  | nil => exact fun m entry hm hk => ⟨entry, hm, hk⟩
  | cons mt ms ih =>
    intro m entry hm hk
    refine ih (setDocChunk m doc mt.chunk_hash
        (ChunkRecord.mk (if failed then "upsert_failed" else "completed") mt))
      (DocEntry.mk entry.status
        (dictInsert entry.chunks mt.chunk_hash
          (ChunkRecord.mk (if failed then "upsert_failed" else "completed") mt))
        entry.error_message) ?_ ?_
    · rw [setDocChunk, dictLookup_mapDoc_self, hm]
      rfl
    · exact dictLookup_dictInsert_isSome _ _ _ _ hk

/-- Claim C10: the per-document chunk map only grows or overwrites entries:
every chunk key recorded in the manifest when it is loaded is still present
in the entry persisted at the end of any ingestion call for that document
(in particular, re-ingestion under a different embedding model retains the
stale keys of the old model). -/
theorem chunk_entries_never_removed (env : Env)
    (cache0 : ChunkKey → Option Vec) (manifest0 : Manifest)
    (file_path doc_id : String) (k : ChunkKey) (entry0 : DocEntry)
    (h0 : dictLookup doc_id manifest0 = some entry0)
    (hk : (dictLookup k entry0.chunks).isSome) :
    ∃ entry', dictLookup doc_id
        (ingest_document env cache0 manifest0 file_path doc_id).finalManifest
          = some entry' ∧
      (dictLookup k entry'.chunks).isSome := by
  have hEns : ensureDoc manifest0 doc_id = manifest0 :=
    ensureDoc_of_lookup_some manifest0 doc_id entry0 h0
  refine run_cases env cache0 manifest0 file_path doc_id
    (fun out => ∃ entry', dictLookup doc_id out.finalManifest = some entry' ∧
      (dictLookup k entry'.chunks).isSome) ?_ ?_ ?_
  · intro pre e _
    rw [failRun_finalManifest, hEns, setDocError, dictLookup_mapDoc_self,
      setDocStatus, dictLookup_mapDoc_self, h0]
    exact ⟨_, rfl, hk⟩
  · rw [hEns]
    show ∃ entry', dictLookup doc_id (setDocStatus manifest0 doc_id "failed_empty")
        = some entry' ∧ _
    rw [setDocStatus, dictLookup_mapDoc_self, h0]
    exact ⟨_, rfl, hk⟩
  · intro pre metas allEmb n _
    obtain ⟨failed, s, hm⟩ :=
      upsertPhase_finalManifest_shape env (ensureDoc manifest0 doc_id) doc_id
        pre metas allEmb n
    rw [hm, hEns]
    obtain ⟨entry', he', hk'⟩ :=
      recordChunks_preserves_chunkKey doc_id failed k metas manifest0 entry0 h0 hk
    rw [setDocStatus, dictLookup_mapDoc_self, he']
    exact ⟨_, rfl, hk'⟩

/-- A chunk key recorded under an older embedding model. -/
def staleKey : ChunkKey := ⟨"doc1", 0, 5, "hello", "old-model"⟩

/-- A manifest whose `doc1` entry already holds a chunk recorded under
`old-model`; the document is then re-ingested under a different model. -/
def staleManifest : Manifest :=
  [("doc1",
    { status := "completed",
      chunks := [(staleKey,
        { status := "completed",
          metadata := ⟨"doc1", "f.txt", 0, 5, staleKey, "old-model"⟩ })] })]

/-- Re-ingestion environment under the new model `new-model`: one chunk,
successful upsert. -/
def staleEnv : Env :=
  ⟨fun _ => .ok "hello", fun _ => .ok [("hello", 0, 5)],
    fun ts => .ok (ts.map (fun _ => [1])), fun _ => true, 64, "new-model"⟩

theorem chunk_entries_never_removed_witness :
    dictLookup "doc1" staleManifest = some
      { status := "completed",
        chunks := [(staleKey,
          { status := "completed",
            metadata := ⟨"doc1", "f.txt", 0, 5, staleKey, "old-model"⟩ })] } ∧
    ∃ entry', dictLookup "doc1"
        (ingest_document staleEnv (fun _ => none) staleManifest
          "f.txt" "doc1").finalManifest = some entry' ∧
      (dictLookup staleKey entry'.chunks).isSome :=
  ⟨rfl,
    chunk_entries_never_removed staleEnv (fun _ => none) staleManifest
      "f.txt" "doc1" staleKey _ rfl (by decide)⟩

theorem toBatches_nil {α : Type} (B : Nat) : toBatches B ([] : List α) = [] :=
  rfl

theorem failRun_doc_entry (m1 : Manifest) (doc : String) (pre : List Event)
    (e : String) (entry : DocEntry) (hm : dictLookup doc m1 = some entry) :
    dictLookup doc (failRun m1 doc pre e).finalManifest
      = some (DocEntry.mk "failed" entry.chunks (some e)) := by
  rw [failRun_finalManifest, setDocError, dictLookup_mapDoc_self, setDocStatus,
    dictLookup_mapDoc_self, hm]
  rfl

theorem upsertPhase_events (env : Env) (m1 : Manifest) (doc : String)
    (pre : List Event) (metas : List ChunkMeta) (allEmb : List Vec) (n : Nat) :
    ∃ upEvs, (upsertPhase env m1 doc pre metas allEmb n).events
        = pre ++ upEvs
          ++ [.manifestSave (upsertPhase env m1 doc pre metas allEmb n).finalManifest]
      ∧ upEvs.length ≤ 2 ∧ (∀ ev ∈ upEvs, ev.isUpsert = true) := by
  unfold upsertPhase
  dsimp only
  split
  · exact ⟨[], rfl, by simp, by simp⟩
  · unfold upsertWithRetry
    split
    · exact ⟨_, rfl, by simp, by
        intro ev hev
        rcases List.mem_singleton.mp hev with rfl
        rfl⟩
    · split
      · refine ⟨_, rfl, by simp, ?_⟩
        intro ev hev
        rcases List.mem_cons.mp hev with rfl | hev
        · rfl
        · rcases List.mem_singleton.mp hev with rfl; rfl
      · refine ⟨_, rfl, by simp, ?_⟩
        intro ev hev
        rcases List.mem_cons.mp hev with rfl | hev
        · rfl
        · rcases List.mem_singleton.mp hev with rfl; rfl

/-- The run raised an unhandled exception (message `e`) during parse, chunk
or embed: the three fallible steps covered by the pipeline's `try` block in
which collaborators can raise. -/
def RunRaises (env : Env) (cache0 : ChunkKey → Option Vec)
    (file_path doc_id e : String) : Prop :=
  env.parse file_path = .error e ∨
  ∃ text, env.parse file_path = .ok text ∧ isBlank text = false ∧
    (env.chunk text = .error e ∨
     ∃ chunks, env.chunk text = .ok chunks ∧
       (embedBatches env.embed (toBatches env.batchSize
         ((missChunks cache0 doc_id file_path env.embed_model chunks).map (·.1)))).2
           = .error e)

/-- Claim C3: every ingestion call persists the manifest as its last side
effect before returning (success, empty document, or unhandled exception
during parse/chunk/embed), and in the unhandled-exception case the
persisted entry for the document has status `failed` with the exception's
message as `error_message`. -/
theorem run_persists_manifest (env : Env) (cache0 : ChunkKey → Option Vec)
    (manifest0 : Manifest) (file_path doc_id : String) :
    ((ingest_document env cache0 manifest0 file_path doc_id).events.getLast?
      = some (.manifestSave
          (ingest_document env cache0 manifest0 file_path doc_id).finalManifest)) ∧
    (∀ e, RunRaises env cache0 file_path doc_id e →
      ∃ entry, dictLookup doc_id
          (ingest_document env cache0 manifest0 file_path doc_id).finalManifest
            = some entry ∧
        entry.status = "failed" ∧ entry.error_message = some e) := by
  obtain ⟨entry0, hent⟩ := Option.isSome_iff_exists.mp
    (dictLookup_ensureDoc_isSome manifest0 doc_id)
  constructor
  · refine run_cases env cache0 manifest0 file_path doc_id
      (fun out => out.events.getLast? = some (.manifestSave out.finalManifest))
      ?_ ?_ ?_
    · intro pre e _
      exact List.getLast?_concat _
    · rfl
    · intro pre metas allEmb n _
      obtain ⟨upEvs, hev, _, _⟩ :=
        upsertPhase_events env (ensureDoc manifest0 doc_id) doc_id pre metas
          allEmb n
      rw [hev, List.append_assoc]
      rw [← List.append_assoc]
      exact List.getLast?_concat _
  · intro e hr
    rcases hr with hp | ⟨text, hp, ht, hcase⟩
    · simp only [ingest_document, hp]
      exact ⟨_, failRun_doc_entry _ _ _ _ entry0 hent, rfl, rfl⟩
    · rcases hcase with hc | ⟨chunks, hc, heb⟩
      · simp only [ingest_document, hp, ht, Bool.false_eq_true, if_false, hc]
        exact ⟨_, failRun_doc_entry _ _ _ _ entry0 hent, rfl, rfl⟩
      · simp only [ingest_document, hp, ht, Bool.false_eq_true, if_false, hc]
        unfold embedPhase
        dsimp only
        by_cases hemp :
            ((missChunks cache0 doc_id file_path env.embed_model chunks).map
              (·.1)).isEmpty
        · exfalso
          rw [List.isEmpty_iff] at hemp
          rw [hemp, toBatches_nil] at heb
          simp [embedBatches] at heb
        · rw [if_neg (by simpa using hemp), heb]
          exact ⟨_, failRun_doc_entry _ _ _ _ entry0 hent, rfl, rfl⟩

/-- An environment whose parse step raises `boom`. -/
def parseFailEnv : Env :=
  ⟨fun _ => .error "boom", fun _ => .ok [], fun _ => .ok [],
    fun _ => true, 64, "all-MiniLM-L6-v2"⟩

theorem run_persists_manifest_witness :
    ((ingest_document parseFailEnv (fun _ => none) [] "f.txt" "d").events.getLast?
      = some (.manifestSave
          (ingest_document parseFailEnv (fun _ => none) [] "f.txt" "d").finalManifest)) ∧
    ∃ entry, dictLookup "d"
        (ingest_document parseFailEnv (fun _ => none) [] "f.txt" "d").finalManifest
          = some entry ∧
      entry.status = "failed" ∧ entry.error_message = some "boom" :=
  ⟨(run_persists_manifest parseFailEnv (fun _ => none) [] "f.txt" "d").1,
    (run_persists_manifest parseFailEnv (fun _ => none) [] "f.txt" "d").2 "boom"
      (Or.inl rfl)⟩

/-- An environment whose parsed text is whitespace-only. -/
def emptyDocEnv : Env :=
  ⟨fun _ => .ok "   ", fun _ => .ok [], fun _ => .ok [],
    fun _ => true, 64, "all-MiniLM-L6-v2"⟩

/-- Claim C1 is false as stated: for a whitespace-only document the manifest
does record `failed_empty`, but the dict returned by `ingest_document` is
`{"status": "failed", "reason": "empty document"}` — its status field is
`"failed"`, not `"failed_empty"`, and it carries no chunk/embedding/upsert
counts at all. -/
theorem empty_document_status_counterexample :
    (dictLookup "d" (ingest_document emptyDocEnv (fun _ => none) []
        "f.txt" "d").finalManifest).map DocEntry.status = some "failed_empty" ∧
    (ingest_document emptyDocEnv (fun _ => none) [] "f.txt" "d").result
      = .failure "empty document" ∧
    (ingest_document emptyDocEnv (fun _ => none) [] "f.txt" "d").result.statusField
      = "failed" ∧
    ("failed" : String) ≠ "failed_empty" := by
  refine ⟨by decide, by decide, by decide, by decide⟩

/-- Claim C1, amended: for every ingestion call whose parsed text is empty
or whitespace-only, the pipeline performs no chunking, no embedding and no
index upsert (the only side effect is the manifest save), records manifest
status `failed_empty` for the document, and returns the early dict
`{"status": "failed", "reason": "empty document"}` (which carries no
chunk/embedding/upsert counts). -/
theorem empty_document_run (env : Env) (cache0 : ChunkKey → Option Vec)
    (manifest0 : Manifest) (file_path doc_id text : String)
    (hp : env.parse file_path = .ok text) (ht : isBlank text = true) :
    ((ingest_document env cache0 manifest0 file_path doc_id).events
      = [.manifestSave
          (ingest_document env cache0 manifest0 file_path doc_id).finalManifest]) ∧
    (∃ entry, dictLookup doc_id
        (ingest_document env cache0 manifest0 file_path doc_id).finalManifest
          = some entry ∧
      entry.status = "failed_empty") ∧
    ((ingest_document env cache0 manifest0 file_path doc_id).result
      = .failure "empty document") ∧
    ((ingest_document env cache0 manifest0 file_path doc_id).result.statusField
      = "failed") := by
  obtain ⟨entry0, hent⟩ := Option.isSome_iff_exists.mp
    (dictLookup_ensureDoc_isSome manifest0 doc_id)
  simp only [ingest_document, hp, if_pos ht]
  refine ⟨trivial,
    ⟨DocEntry.mk "failed_empty" entry0.chunks entry0.error_message, ?_, rfl⟩,
    trivial, rfl⟩
  rw [setDocStatus, dictLookup_mapDoc_self, hent]
  rfl

theorem empty_document_run_witness :
    (emptyDocEnv.parse "f.txt" = .ok "   ") ∧ (isBlank "   " = true) ∧
    (((ingest_document emptyDocEnv (fun _ => none) [] "f.txt" "d").events
      = [.manifestSave
          (ingest_document emptyDocEnv (fun _ => none) [] "f.txt" "d").finalManifest]) ∧
    (∃ entry, dictLookup "d"
        (ingest_document emptyDocEnv (fun _ => none) [] "f.txt" "d").finalManifest
          = some entry ∧
      entry.status = "failed_empty") ∧
    ((ingest_document emptyDocEnv (fun _ => none) [] "f.txt" "d").result
      = .failure "empty document") ∧
    ((ingest_document emptyDocEnv (fun _ => none) [] "f.txt" "d").result.statusField
      = "failed")) :=
  ⟨rfl, by decide,
    empty_document_run emptyDocEnv (fun _ => none) [] "f.txt" "d" "   "
      rfl (by decide)⟩

theorem recordChunks_keeps_status (doc : String) (failed : Bool) (h : ChunkKey) :
    ∀ (ms : List ChunkMeta) (M : Manifest) (E : DocEntry) (rec : ChunkRecord),
      dictLookup doc M = some E → dictLookup h E.chunks = some rec →
      rec.status = (if failed then "upsert_failed" else "completed") →
      ∃ E' rec', dictLookup doc (recordChunks M doc failed ms) = some E' ∧
        dictLookup h E'.chunks = some rec' ∧
        rec'.status = (if failed then "upsert_failed" else "completed") := by
  intro ms
  induction ms with
  | nil => intro M E rec hE hrec hst; exact ⟨E, rec, hE, hrec, hst⟩
  | cons mt ms ih =>
    intro M E rec hE hrec hst
    have hE' : dictLookup doc (setDocChunk M doc mt.chunk_hash
        (ChunkRecord.mk (if failed then "upsert_failed" else "completed") mt))
        = some (DocEntry.mk E.status
            (dictInsert E.chunks mt.chunk_hash
              (ChunkRecord.mk (if failed then "upsert_failed" else "completed") mt))
            E.error_message) := by
      rw [setDocChunk, dictLookup_mapDoc_self, hE]
      rfl
    by_cases hk : mt.chunk_hash = h
    · subst hk
      exact ih _ _ (ChunkRecord.mk
          (if failed then "upsert_failed" else "completed") mt) hE'
        (dictLookup_dictInsert_self _ _ _) rfl
    · refine ih _ _ rec hE' ?_ hst
      show dictLookup h (dictInsert E.chunks mt.chunk_hash _) = some rec
      rw [dictLookup_dictInsert_ne _ _ _ _ hk]
      exact hrec

theorem recordChunks_marks (doc : String) (failed : Bool) :
    ∀ (metas : List ChunkMeta) (m : Manifest) (entry : DocEntry),
      dictLookup doc m = some entry →
      ∀ mt ∈ metas, ∃ entry' rec,
        dictLookup doc (recordChunks m doc failed metas) = some entry' ∧
        dictLookup mt.chunk_hash entry'.chunks = some rec ∧
        rec.status = (if failed then "upsert_failed" else "completed") := by
  intro metas
  induction metas with
  | nil => intro m entry hm mt hmt; exact absurd hmt (List.not_mem_nil mt)
  | cons mt0 ms ih =>
    intro m entry hm mt hmt
    have hm' : dictLookup doc (setDocChunk m doc mt0.chunk_hash
        (ChunkRecord.mk (if failed then "upsert_failed" else "completed") mt0))
        = some (DocEntry.mk entry.status
            (dictInsert entry.chunks mt0.chunk_hash
              (ChunkRecord.mk (if failed then "upsert_failed" else "completed") mt0))
            entry.error_message) := by
      rw [setDocChunk, dictLookup_mapDoc_self, hm]
      rfl
    rcases List.mem_cons.mp hmt with rfl | hmt'
    · exact recordChunks_keeps_status doc failed mt.chunk_hash ms _ _
        (ChunkRecord.mk (if failed then "upsert_failed" else "completed") mt) hm'
        (dictLookup_dictInsert_self _ _ _) rfl
    · exact ih _ _ hm' mt hmt'

theorem upsertPhase_fail_spec (env : Env) (m1 : Manifest) (doc : String)
    (pre : List Event) (metas : List ChunkMeta) (allEmb : List Vec) (n : Nat)
    (hne : metas ≠ []) (hf1 : env.upsertOutcome 1 = false)
    (hf2 : env.upsertOutcome 2 = false) :
    (upsertPhase env m1 doc pre metas allEmb n).result
      = .report (Report.mk doc "completed_with_errors"
          (metas.map (·.chunk_hash)).length n
          ((metas.map (·.chunk_hash)).length - n)
          ((metas.map (·.chunk_hash)).dedup).length) ∧
    (upsertPhase env m1 doc pre metas allEmb n).finalManifest
      = setDocStatus (recordChunks m1 doc true metas) doc
          "completed_with_errors" := by
  have hmap : metas.map (·.chunk_hash) ≠ [] := by
    simpa using hne
  have hempty : (metas.map (·.chunk_hash)).isEmpty = false := by
    simp [List.isEmpty_iff, hmap]
  have hdedup : ((metas.map (·.chunk_hash)).dedup).isEmpty = false := by
    simp [List.isEmpty_iff, List.dedup_eq_nil, hmap]
  unfold upsertPhase upsertWithRetry
  simp only [hempty, hf1, hf2, Bool.false_eq_true, if_false, hdedup,
    Bool.not_false]
  exact ⟨by trivial, by trivial⟩

theorem embedPhase_report (env : Env) (cache0 : ChunkKey → Option Vec)
    (m1 : Manifest) (file_path doc_id : String)
    (chunks : List (String × Nat × Nat)) (r : Report)
    (h : (embedPhase env cache0 m1 file_path doc_id chunks).result = .report r) :
    ∃ pre allEmb n, embedPhase env cache0 m1 file_path doc_id chunks
      = upsertPhase env m1 doc_id pre
          (chunks.map (metaOf doc_id file_path env.embed_model)) allEmb n := by
  unfold embedPhase at h ⊢
  dsimp only at h ⊢
  by_cases hemp : ((missChunks cache0 doc_id file_path env.embed_model
      chunks).map (·.1)).isEmpty = true
  · rw [if_pos hemp] at h ⊢
    exact ⟨_, _, _, rfl⟩
  · rw [if_neg hemp] at h ⊢
    cases heb : (embedBatches env.embed (toBatches env.batchSize
        ((missChunks cache0 doc_id file_path env.embed_model chunks).map
          (·.1)))).2 with
    | error e =>
      rw [heb] at h
      simp [failRun] at h
    | ok generated =>
      rw [heb] at h
      dsimp only at h ⊢
      unfold mergePhase at h ⊢
      dsimp only at h ⊢
      by_cases hlen : ((missChunks cache0 doc_id file_path env.embed_model
          chunks).map (metaOf doc_id file_path env.embed_model)).length
            < generated.length
      · rw [if_pos hlen] at h
        simp [failRun] at h
      · rw [if_neg hlen] at h ⊢
        cases hre : reassemble
            (buildMap ((((missChunks cache0 doc_id file_path env.embed_model
              chunks).map (metaOf doc_id file_path env.embed_model)).map
                (·.chunk_hash)).zip generated))
            (chunks.map (metaOf doc_id file_path env.embed_model))
            (hitVecs cache0 doc_id file_path env.embed_model chunks) with
        | none =>
          rw [hre] at h
          simp [failRun] at h
        | some allEmb =>
          rw [hre] at h
          dsimp only at h ⊢
          exact ⟨_, _, _, rfl⟩

/-- Claim C4, amended: the index upsert is attempted at most 2 times in
every run; if every attempt fails then every chunk key is marked
`upsert_failed` in the manifest, the document's manifest status becomes
`completed_with_errors`, and the report's `failed_upserts` equals the
number of *distinct* chunk keys — which equals `total_chunks` whenever the
chunk keys are pairwise distinct, but is smaller when two chunks share a
key (`failed_upsert_hashes` is a Python `set`). -/
theorem upsert_retry_exhaustion :
    (∀ (env : Env) (cache0 : ChunkKey → Option Vec) (manifest0 : Manifest)
      (file_path doc_id : String),
      ((ingest_document env cache0 manifest0 file_path doc_id).events.countP
        Event.isUpsert) ≤ 2) ∧
    (∀ (env : Env) (cache0 : ChunkKey → Option Vec) (manifest0 : Manifest)
      (file_path doc_id text : String)
      (chunks : List (String × Nat × Nat)) (r : Report),
      env.parse file_path = .ok text → isBlank text = false →
      env.chunk text = .ok chunks → chunks ≠ [] →
      env.upsertOutcome 1 = false → env.upsertOutcome 2 = false →
      (ingest_document env cache0 manifest0 file_path doc_id).result
        = .report r →
      r.status = "completed_with_errors" ∧
      r.total_chunks = chunks.length ∧
      r.failed_upserts = ((chunks.map
        (fun c => (metaOf doc_id file_path env.embed_model c).chunk_hash)).dedup).length ∧
      ((chunks.map
          (fun c => (metaOf doc_id file_path env.embed_model c).chunk_hash)).Nodup →
        r.failed_upserts = r.total_chunks) ∧
      (∃ entry, dictLookup doc_id
          (ingest_document env cache0 manifest0 file_path doc_id).finalManifest
            = some entry ∧
        entry.status = "completed_with_errors" ∧
        ∀ c ∈ chunks, ∃ rec,
          dictLookup (metaOf doc_id file_path env.embed_model c).chunk_hash
            entry.chunks = some rec ∧
          rec.status = "upsert_failed")) := by
  constructor
  · intro env cache0 manifest0 file_path doc_id
    refine run_cases env cache0 manifest0 file_path doc_id
      (fun out => out.events.countP Event.isUpsert ≤ 2) ?_ ?_ ?_
    · intro pre e hpre
      show ((pre ++ [Event.manifestSave _]).countP Event.isUpsert) ≤ 2
      rw [List.countP_append]
      have h1 : pre.countP Event.isUpsert = 0 :=
        List.countP_eq_zero.mpr (by intro ev hev; simp [hpre ev hev])
      simp [h1, List.countP_cons, Event.isUpsert]
    · simp [List.countP_cons, Event.isUpsert]
    · intro pre metas allEmb n hpre
      obtain ⟨upEvs, hev, hlen, _⟩ :=
        upsertPhase_events env (ensureDoc manifest0 doc_id) doc_id pre metas
          allEmb n
      rw [hev, List.countP_append, List.countP_append]
      have h1 : pre.countP Event.isUpsert = 0 :=
        List.countP_eq_zero.mpr (by intro ev hev'; simp [hpre ev hev'])
      have h2 : upEvs.countP Event.isUpsert ≤ 2 :=
        le_trans (List.countP_le_length _) hlen
      have h3 : ∀ m : Manifest,
          ([Event.manifestSave m].countP Event.isUpsert) = 0 := fun m => rfl
      rw [h1, h3]
      omega
  · intro env cache0 manifest0 file_path doc_id text chunks r hp ht hc hne
      hf1 hf2 hrep
    have hred : ingest_document env cache0 manifest0 file_path doc_id
        = embedPhase env cache0 (ensureDoc manifest0 doc_id) file_path doc_id
            chunks := by
      simp only [ingest_document, hp, ht, Bool.false_eq_true, if_false, hc]
    rw [hred] at hrep ⊢
    obtain ⟨pre, allEmb, n, hEq⟩ :=
      embedPhase_report env cache0 (ensureDoc manifest0 doc_id) file_path
        doc_id chunks r hrep
    rw [hEq] at hrep ⊢
    have hmne : chunks.map (metaOf doc_id file_path env.embed_model) ≠ [] := by
      simpa using hne
    obtain ⟨hres, hman⟩ :=
      upsertPhase_fail_spec env (ensureDoc manifest0 doc_id) doc_id pre
        (chunks.map (metaOf doc_id file_path env.embed_model)) allEmb n hmne
        hf1 hf2
    rw [hres] at hrep
    have hr : r = Report.mk doc_id "completed_with_errors"
        ((chunks.map (metaOf doc_id file_path env.embed_model)).map
          (·.chunk_hash)).length n
        (((chunks.map (metaOf doc_id file_path env.embed_model)).map
          (·.chunk_hash)).length - n)
        (((chunks.map (metaOf doc_id file_path env.embed_model)).map
          (·.chunk_hash)).dedup).length := by
      cases hrep
      rfl
    have hkeys : (chunks.map (metaOf doc_id file_path env.embed_model)).map
        (·.chunk_hash) = chunks.map
          (fun c => (metaOf doc_id file_path env.embed_model c).chunk_hash) := by
      rw [List.map_map]
      rfl
    refine ⟨by rw [hr], by rw [hr]; simp, ?_, ?_, ?_⟩
    · rw [hr]
      simp only [hkeys]
    · intro hnd
      rw [hr]
      simp only [hkeys]
      rw [List.Nodup.dedup (by simpa [hkeys] using hnd)]
    · obtain ⟨entry0, hent⟩ := Option.isSome_iff_exists.mp
        (dictLookup_ensureDoc_isSome manifest0 doc_id)
      rw [hman]
      rcases chunks with _ | ⟨c0, cs⟩
      · exact absurd rfl hne
      · obtain ⟨entry', rec0, hL, _, _⟩ :=
          recordChunks_marks doc_id true
            ((c0 :: cs).map (metaOf doc_id file_path env.embed_model))
            (ensureDoc manifest0 doc_id) entry0 hent
            (metaOf doc_id file_path env.embed_model c0)
            (List.mem_map_of_mem _ (List.mem_cons_self _ _))
        refine ⟨DocEntry.mk "completed_with_errors" entry'.chunks
          entry'.error_message, ?_, rfl, ?_⟩
        · rw [setDocStatus, dictLookup_mapDoc_self, hL]
          rfl
        · intro c hcmem
          obtain ⟨entryc, recc, hLc, hkc, hsc⟩ :=
            recordChunks_marks doc_id true
              ((c0 :: cs).map (metaOf doc_id file_path env.embed_model))
              (ensureDoc manifest0 doc_id) entry0 hent
              (metaOf doc_id file_path env.embed_model c)
              (List.mem_map_of_mem _ hcmem)
          have hee : entryc = entry' := by
            rw [hL] at hLc
            exact (Option.some_injective _ hLc).symm
          rw [hee] at hkc
          exact ⟨recc, hkc, by simpa using hsc⟩

/-- An environment producing two *identical* chunk triples (as the
token-based chunker does on periodic text, where two windows decode to the
same string and `text.find` locates both at the same offset): their chunk
hashes coincide.  Both chunks hit the cache; the upsert fails on both
attempts. -/
def dupChunkEnv : Env :=
  ⟨fun _ => .ok "aaaa", fun _ => .ok [("a", 0, 1), ("a", 0, 1)],
    fun _ => .ok [], fun _ => false, 64, "all-MiniLM-L6-v2"⟩

set_option maxRecDepth 8192 in
/-- Claim C4 is false as stated: with two chunks sharing one chunk key and
the upsert failing on every attempt, `failed_upsert_hashes` is a Python
`set` holding 1 element, so the report has `failed_upserts = 1` while
`total_chunks = 2`. -/
theorem upsert_retry_exhaustion_counterexample :
    (ingest_document dupChunkEnv (fun _ => some [7]) [] "f.txt" "d").result
      = .report (Report.mk "d" "completed_with_errors" 2 0 2 1) ∧
    (1 : Nat) ≠ 2 := by
  refine ⟨by decide, by decide⟩

/-- Two distinct chunks, cache hits, upsert failing on both attempts. -/
def upsertFailEnv : Env :=
  ⟨fun _ => .ok "hello world", fun _ => .ok [("hello", 0, 5), ("world", 6, 11)],
    fun _ => .ok [], fun _ => false, 64, "all-MiniLM-L6-v2"⟩

theorem upsert_retry_exhaustion_witness :
    (((ingest_document upsertFailEnv (fun _ => some [7]) [] "f.txt" "d").events.countP
        Event.isUpsert) ≤ 2) ∧
    ((ingest_document upsertFailEnv (fun _ => some [7]) [] "f.txt" "d").result
        = .report (Report.mk "d" "completed_with_errors" 2 0 2 2) →
      True) ∧
    (∃ r : Report,
      (ingest_document upsertFailEnv (fun _ => some [7]) [] "f.txt" "d").result
        = .report r ∧
      r.status = "completed_with_errors" ∧ r.failed_upserts = r.total_chunks) := by
  refine ⟨upsert_retry_exhaustion.1 upsertFailEnv (fun _ => some [7]) []
    "f.txt" "d", fun _ => trivial, ?_⟩
  obtain ⟨h1, h2, h3, h4, h5⟩ :=
    upsert_retry_exhaustion.2 upsertFailEnv (fun _ => some [7]) [] "f.txt" "d"
      "hello world" [("hello", 0, 5), ("world", 6, 11)]
      (Report.mk "d" "completed_with_errors" 2 0 2 2)
      rfl (by decide) rfl (by decide) rfl rfl (by decide)
  exact ⟨Report.mk "d" "completed_with_errors" 2 0 2 2, by decide,
    h1, h4 (by decide)⟩

theorem isCache_eq_false_of_isEmbed (ev : Event) (h : ev.isEmbed = true) :
    ev.isCache = false := by
  cases ev <;> simp [Event.isEmbed, Event.isCache] at *

theorem suffix_helper (e0 : Event) (l1 l2 upEvs : List Event) (m : Manifest)
    (hup : ∀ ev ∈ upEvs, Event.isUpsert ev = true) :
    ∃ suffix, (e0 :: l1 ++ l2) ++ upEvs ++ [Event.manifestSave m]
        = e0 :: l1 ++ l2 ++ suffix ∧
      ∀ ev ∈ suffix, ev.isUpsert = true ∨ ev.isSave = true := by
  refine ⟨upEvs ++ [Event.manifestSave m], by simp [List.append_assoc], ?_⟩
  intro ev hev
  rcases List.mem_append.mp hev with h | h
  · exact Or.inl (hup ev h)
  · rcases List.mem_singleton.mp h with rfl
    exact Or.inr rfl

/-- Two cache-miss chunks with batch size 1: the first batch succeeds, the
second raises (after its internal retries). -/
def batchFailEnv : Env :=
  ⟨fun _ => .ok "t", fun _ => .ok [("a", 0, 1), ("b", 1, 2)],
    fun ts => if ts = ["a"] then .ok [[1]] else .error "boom",
    fun _ => true, 1, "all-MiniLM-L6-v2"⟩

set_option maxRecDepth 8192 in
/-- Claim C2 is false as stated: with two single-chunk batches where the
first succeeds and the second fails, the run performs both `embed_batch`
calls but writes *nothing* to the embedding cache — the cache write-through
loop runs only after all batches have been embedded (processor.py lines
286–294), so the first batch's vector is not in the cache when the later
batch fails. -/
theorem cache_write_through_counterexample :
    batchFailEnv.embed ["a"] = .ok [[1]] ∧
    batchFailEnv.embed ["b"] = .error "boom" ∧
    (ingest_document batchFailEnv (fun _ => none) [] "f.txt" "d").result
      = .failure "boom" ∧
    ((ingest_document batchFailEnv (fun _ => none) [] "f.txt" "d").events.countP
      Event.isEmbed) = 2 ∧
    ((ingest_document batchFailEnv (fun _ => none) [] "f.txt" "d").events.countP
      Event.isCache) = 0 := by
  refine ⟨rfl, rfl, by decide, by decide, by decide⟩

/-- Claim C2, amended: newly produced vectors are written through to the
embedding cache only after *all* batches have been embedded: when every
batch succeeds, the run's trace is the chunking event, then all
`embed_batch` calls, then one cache write per newly computed vector keyed
by ChunkKey, and only then the upsert attempts and the manifest save; when
any batch fails, no vector at all is written to the cache (so an earlier
successful batch's vectors are *not* in the cache). -/
theorem cache_write_after_batches (env : Env) (cache0 : ChunkKey → Option Vec)
    (manifest0 : Manifest) (file_path doc_id text : String)
    (chunks : List (String × Nat × Nat))
    (hp : env.parse file_path = .ok text) (ht : isBlank text = false)
    (hc : env.chunk text = .ok chunks)
    (hmiss : (missChunks cache0 doc_id file_path env.embed_model chunks).map
      (·.1) ≠ []) :
    (∀ e, (embedBatches env.embed (toBatches env.batchSize
        ((missChunks cache0 doc_id file_path env.embed_model chunks).map
          (·.1)))).2 = .error e →
      ((ingest_document env cache0 manifest0 file_path doc_id).events.countP
        Event.isCache) = 0) ∧
    (∀ generated, (embedBatches env.embed (toBatches env.batchSize
        ((missChunks cache0 doc_id file_path env.embed_model chunks).map
          (·.1)))).2 = .ok generated →
      ∃ suffix, (ingest_document env cache0 manifest0 file_path doc_id).events
          = Event.chunked chunks.length
            :: (embedBatches env.embed (toBatches env.batchSize
                ((missChunks cache0 doc_id file_path env.embed_model chunks).map
                  (·.1)))).1
            ++ ((((missChunks cache0 doc_id file_path env.embed_model
                chunks).map (metaOf doc_id file_path env.embed_model)).map
                  (·.chunk_hash)).zip generated).map
                    (fun p => Event.cacheWrite p.1 p.2)
            ++ suffix ∧
        ∀ ev ∈ suffix, ev.isUpsert = true ∨ ev.isSave = true) := by
  have hred : ingest_document env cache0 manifest0 file_path doc_id
      = embedPhase env cache0 (ensureDoc manifest0 doc_id) file_path doc_id
          chunks := by
    simp only [ingest_document, hp, ht, Bool.false_eq_true, if_false, hc]
  rw [hred]
  have hempF : ¬ ((missChunks cache0 doc_id file_path env.embed_model
      chunks).map (·.1)).isEmpty = true := by
    simp [List.isEmpty_iff, hmiss]
  unfold embedPhase
  dsimp only
  rw [if_neg hempF]
  constructor
  · intro e he
    rw [he]
    refine List.countP_eq_zero.mpr ?_
    intro ev hev
    show ¬ ev.isCache = true
    rcases List.mem_cons.mp hev with rfl | hev
    · simp [Event.isCache]
    · rcases List.mem_append.mp hev with hev | hev
      · simp [isCache_eq_false_of_isEmbed ev (embedBatches_events env.embed _ ev hev)]
      · rcases List.mem_singleton.mp hev with rfl
        simp [Event.isCache]
  · intro generated hg
    rw [hg]
    dsimp only
    unfold mergePhase
    dsimp only
    split
    · refine ⟨[.manifestSave (setDocError (setDocStatus
        (ensureDoc manifest0 doc_id) doc_id "failed") doc_id
        "list index out of range")], ?_, ?_⟩
      · simp [failRun, List.append_assoc]
      · intro ev hev
        rcases List.mem_singleton.mp hev with rfl
        exact Or.inr rfl
    · split
      · refine ⟨[.manifestSave (setDocError (setDocStatus
          (ensureDoc manifest0 doc_id) doc_id "failed") doc_id
          "list index out of range")], ?_, ?_⟩
        · simp [failRun, List.append_assoc]
        · intro ev hev
          rcases List.mem_singleton.mp hev with rfl
          exact Or.inr rfl
      · rename_i allEmb hre
        obtain ⟨upEvs, hev, _, hup⟩ :=
          upsertPhase_events env (ensureDoc manifest0 doc_id) doc_id _ _ allEmb _
        rw [hev]
        exact suffix_helper _ _ _ upEvs _ hup

/-- Two cache-miss chunks, batch size 1, both batches succeed. -/
def twoBatchEnv : Env :=
  ⟨fun _ => .ok "t", fun _ => .ok [("a", 0, 1), ("b", 1, 2)],
    fun ts => .ok (ts.map (fun _ => [5])), fun _ => true, 1,
    "all-MiniLM-L6-v2"⟩

set_option maxRecDepth 8192 in
theorem cache_write_after_batches_witness :
    ((missChunks (fun _ => none) "d" "f.txt" twoBatchEnv.embed_model
        [("a", 0, 1), ("b", 1, 2)]).map (·.1) ≠ []) ∧
    (∀ generated, (embedBatches twoBatchEnv.embed (toBatches
        twoBatchEnv.batchSize
        ((missChunks (fun _ => none) "d" "f.txt" twoBatchEnv.embed_model
          [("a", 0, 1), ("b", 1, 2)]).map (·.1)))).2 = .ok generated →
      ∃ suffix, (ingest_document twoBatchEnv (fun _ => none) [] "f.txt" "d").events
          = Event.chunked ([("a", 0, 1), ("b", 1, 2)] : List (String × Nat × Nat)).length
            :: (embedBatches twoBatchEnv.embed (toBatches twoBatchEnv.batchSize
                ((missChunks (fun _ => none) "d" "f.txt" twoBatchEnv.embed_model
                  [("a", 0, 1), ("b", 1, 2)]).map (·.1)))).1
            ++ ((((missChunks (fun _ => none) "d" "f.txt" twoBatchEnv.embed_model
                [("a", 0, 1), ("b", 1, 2)]).map
                  (metaOf "d" "f.txt" twoBatchEnv.embed_model)).map
                    (·.chunk_hash)).zip generated).map
                      (fun p => Event.cacheWrite p.1 p.2)
            ++ suffix ∧
        ∀ ev ∈ suffix, ev.isUpsert = true ∨ ev.isSave = true) :=
  ⟨by decide,
    (cache_write_after_batches twoBatchEnv (fun _ => none) [] "f.txt" "d" "t"
      [("a", 0, 1), ("b", 1, 2)] rfl (by decide) rfl (by decide)).2⟩

theorem toBatchesAux_join {α : Type} (B : Nat) (hB : B ≠ 0) :
    ∀ (fuel : Nat) (l : List α), l.length ≤ fuel →
      (toBatchesAux fuel B l).flatten = l := by
  intro fuel
  induction fuel with
  | zero =>
    intro l hl
    have : l = [] := List.eq_nil_of_length_eq_zero (Nat.le_zero.mp hl)
    subst this
    rfl
  | succ fuel ih =>
    intro l hl
    by_cases hemp : l.isEmpty = true
    · rw [List.isEmpty_iff] at hemp
      subst hemp
      rfl
    · unfold toBatchesAux
      rw [if_neg hemp, if_neg hB]
      have hlp : 0 < l.length := by
        rcases l with _ | ⟨a, l⟩
        · simp at hemp
        · simp
      rw [List.flatten_cons, ih (l.drop B) (by simp [List.length_drop]; omega)]
      exact List.take_append_drop B l

theorem toBatches_join {α : Type} (B : Nat) (hB : B ≠ 0) (l : List α) :
    (toBatches B l).flatten = l :=
  toBatchesAux_join B hB l.length l le_rfl

theorem embedBatches_ok_length (embed : List String → Except String (List Vec))
    (hlen : ∀ ts vs, embed ts = .ok vs → vs.length = ts.length) :
    ∀ (bs : List (List String)) (gen : List Vec),
      (embedBatches embed bs).2 = .ok gen → gen.length = bs.flatten.length := by
  intro bs
  induction bs with
  | nil =>
    intro gen h
    simp only [embedBatches] at h
    cases h
    rfl
  | cons b bs ih =>
    intro gen h
    unfold embedBatches at h
    cases hf : embed b with
    | error e => rw [hf] at h; simp at h
    | ok vs =>
      rw [hf] at h
      dsimp only at h
      cases hr : (embedBatches embed bs).2 with
      | error e => rw [hr] at h; simp at h
      | ok vss =>
        rw [hr] at h
        cases h
        simp [List.length_append, hlen b vs hf, ih vss hr]

theorem dictLookup_foldl_isSome {K V : Type} [DecidableEq K] (k : K) :
    ∀ (pairs : List (K × V)) (acc : List (K × V)),
      (dictLookup k (pairs.foldl (fun a p => dictInsert a p.1 p.2) acc)).isSome
        ↔ ((dictLookup k acc).isSome ∨ k ∈ pairs.map Prod.fst) := by
  intro pairs
  induction pairs with
  | nil => intro acc; simp
  | cons p ps ih =>
    intro acc
    show (dictLookup k (ps.foldl _ (dictInsert acc p.1 p.2))).isSome ↔ _
    rw [ih]
    constructor
    · rintro (hs | hmem)
      · by_cases hk : p.1 = k
        · refine Or.inr ?_
          rw [List.map_cons, List.mem_cons]
          exact Or.inl hk.symm
        · rw [dictLookup_dictInsert_ne _ _ _ _ hk] at hs
          exact Or.inl hs
      · refine Or.inr ?_
        rw [List.map_cons, List.mem_cons]
        exact Or.inr hmem
    · rintro (hs | hmem)
      · left
        exact dictLookup_dictInsert_isSome _ _ _ _ hs
      · rw [List.map_cons, List.mem_cons] at hmem
        rcases hmem with hk | hmem'
        · left
          rw [hk]
          simp [dictLookup_dictInsert_self]
        · right
          exact hmem'

theorem dictLookup_buildMap_isSome (pairs : List (ChunkKey × Vec))
    (k : ChunkKey) :
    (dictLookup k (buildMap pairs)).isSome ↔ k ∈ pairs.map Prod.fst := by
  unfold buildMap
  rw [dictLookup_foldl_isSome]
  simp [dictLookup]

/-- The vector associated to a chunk key after the embed step: the cached
vector on a cache hit, the newly computed vector from `embedding_map` on a
miss. -/
def vecFor (cache0 : ChunkKey → Option Vec) (emap : List (ChunkKey × Vec))
    (k : ChunkKey) : Vec :=
  match cache0 k with
  | some v => v
  | none => (dictLookup k emap).getD []

theorem reassemble_cons (emap : List (ChunkKey × Vec)) (m : ChunkMeta)
    (ms : List ChunkMeta) (temp : List Vec) :
    reassemble emap (m :: ms) temp
      = match dictLookup m.chunk_hash emap with
        | some v => (reassemble emap ms temp).map (v :: ·)
        | none =>
          match temp with
          | [] => none
          | t :: ts => (reassemble emap ms ts).map (t :: ·) := rfl

theorem reassemble_spec (emap : List (ChunkKey × Vec))
    (cache0 : ChunkKey → Option Vec) :
    ∀ metas : List ChunkMeta,
      (∀ mt ∈ metas, cache0 mt.chunk_hash = none ↔
        (dictLookup mt.chunk_hash emap).isSome) →
      reassemble emap metas (metas.filterMap (fun mt => cache0 mt.chunk_hash))
        = some (metas.map (fun mt => vecFor cache0 emap mt.chunk_hash)) := by
  intro metas
  induction metas with
  | nil => intro _; rfl
  | cons mt ms ih =>
    intro hpre
    have hmt := hpre mt (List.mem_cons_self mt ms)
    have hms : ∀ mt' ∈ ms, cache0 mt'.chunk_hash = none ↔
        (dictLookup mt'.chunk_hash emap).isSome :=
      fun mt' hmt' => hpre mt' (List.mem_cons_of_mem mt hmt')
    cases hc : cache0 mt.chunk_hash with
    | some v =>
      have hnone : dictLookup mt.chunk_hash emap = none := by
        cases hl : dictLookup mt.chunk_hash emap with
        | none => rfl
        | some w =>
          have : cache0 mt.chunk_hash = none := hmt.mpr (by simp [hl])
          rw [this] at hc
          cases hc
      have hfm : (mt :: ms).filterMap (fun mt => cache0 mt.chunk_hash)
          = v :: ms.filterMap (fun mt => cache0 mt.chunk_hash) := by
        simp [List.filterMap_cons, hc]
      rw [hfm, reassemble_cons, hnone]
      dsimp only
      rw [ih hms]
      simp [vecFor, hc]
    | none =>
      obtain ⟨w, hw⟩ := Option.isSome_iff_exists.mp (hmt.mp hc)
      have hfm : (mt :: ms).filterMap (fun mt => cache0 mt.chunk_hash)
          = ms.filterMap (fun mt => cache0 mt.chunk_hash) := by
        simp [List.filterMap_cons, hc]
      rw [hfm, reassemble_cons, hw]
      dsimp only
      rw [ih hms]
      simp [vecFor, hc, hw]

theorem hitVecs_eq_filterMap (cache0 : ChunkKey → Option Vec)
    (doc_id file_path model : String) (chunks : List (String × Nat × Nat)) :
    hitVecs cache0 doc_id file_path model chunks
      = (chunks.map (metaOf doc_id file_path model)).filterMap
          (fun mt => cache0 mt.chunk_hash) := by
  rw [List.filterMap_map]
  rfl

theorem miss_hash_characterization (cache0 : ChunkKey → Option Vec)
    (doc_id file_path model : String) (chunks : List (String × Nat × Nat)) :
    ∀ mt ∈ chunks.map (metaOf doc_id file_path model),
      cache0 mt.chunk_hash = none ↔
        mt.chunk_hash ∈ ((missChunks cache0 doc_id file_path model chunks).map
          (metaOf doc_id file_path model)).map (·.chunk_hash) := by
  intro mt hmt
  obtain ⟨c, hcmem, rfl⟩ := List.mem_map.mp hmt
  constructor
  · intro hnone
    refine List.mem_map.mpr ⟨metaOf doc_id file_path model c, ?_, rfl⟩
    refine List.mem_map.mpr ⟨c, ?_, rfl⟩
    unfold missChunks
    refine List.mem_filter.mpr ⟨hcmem, ?_⟩
    simp [hnone]
  · intro hmem
    obtain ⟨mt', hmt', heq⟩ := List.mem_map.mp hmem
    obtain ⟨c', hc', rfl⟩ := List.mem_map.mp hmt'
    have hpred := (List.mem_filter.mp hc').2
    have : cache0 (metaOf doc_id file_path model c').chunk_hash = none := by
      simpa [Option.isNone_iff_eq_none] using hpred
    rw [← heq]
    exact this

/-- Claim C8: when at least one chunk misses the cache and each embed batch
succeeds (returning one vector per text), the per-chunk embedding list
assembled before the index upsert preserves the original chunk order — the
`i`-th embedding is the vector associated with the `i`-th chunk's key,
merged by ChunkKey from cache hits and newly computed vectors — and that is
exactly the list handed to the upsert phase. -/
theorem reassembly_preserves_order (env : Env)
    (cache0 : ChunkKey → Option Vec) (manifest0 : Manifest)
    (file_path doc_id text : String) (chunks : List (String × Nat × Nat))
    (generated : List Vec)
    (hp : env.parse file_path = .ok text) (ht : isBlank text = false)
    (hc : env.chunk text = .ok chunks) (hB : env.batchSize ≠ 0)
    (hlen : ∀ ts vs, env.embed ts = .ok vs → vs.length = ts.length)
    (hmiss : (missChunks cache0 doc_id file_path env.embed_model chunks).map
      (·.1) ≠ [])
    (hg : (embedBatches env.embed (toBatches env.batchSize
        ((missChunks cache0 doc_id file_path env.embed_model chunks).map
          (·.1)))).2 = .ok generated) :
    (reassemble
        (buildMap ((((missChunks cache0 doc_id file_path env.embed_model
          chunks).map (metaOf doc_id file_path env.embed_model)).map
            (·.chunk_hash)).zip generated))
        (chunks.map (metaOf doc_id file_path env.embed_model))
        (hitVecs cache0 doc_id file_path env.embed_model chunks)
      = some ((chunks.map (metaOf doc_id file_path env.embed_model)).map
          (fun mt => vecFor cache0
            (buildMap ((((missChunks cache0 doc_id file_path env.embed_model
              chunks).map (metaOf doc_id file_path env.embed_model)).map
                (·.chunk_hash)).zip generated)) mt.chunk_hash))) ∧
    (((chunks.map (metaOf doc_id file_path env.embed_model)).map
        (fun mt => vecFor cache0
          (buildMap ((((missChunks cache0 doc_id file_path env.embed_model
            chunks).map (metaOf doc_id file_path env.embed_model)).map
              (·.chunk_hash)).zip generated)) mt.chunk_hash)).length
      = chunks.length) ∧
    (∀ i : Nat, ((chunks.map (metaOf doc_id file_path env.embed_model)).map
        (fun mt => vecFor cache0
          (buildMap ((((missChunks cache0 doc_id file_path env.embed_model
            chunks).map (metaOf doc_id file_path env.embed_model)).map
              (·.chunk_hash)).zip generated)) mt.chunk_hash))[i]?
      = ((chunks.map (metaOf doc_id file_path env.embed_model))[i]?).map
          (fun mt => vecFor cache0
            (buildMap ((((missChunks cache0 doc_id file_path env.embed_model
              chunks).map (metaOf doc_id file_path env.embed_model)).map
                (·.chunk_hash)).zip generated)) mt.chunk_hash)) ∧
    (∃ pre n, ingest_document env cache0 manifest0 file_path doc_id
      = upsertPhase env (ensureDoc manifest0 doc_id) doc_id pre
          (chunks.map (metaOf doc_id file_path env.embed_model))
          ((chunks.map (metaOf doc_id file_path env.embed_model)).map
            (fun mt => vecFor cache0
              (buildMap ((((missChunks cache0 doc_id file_path env.embed_model
                chunks).map (metaOf doc_id file_path env.embed_model)).map
                  (·.chunk_hash)).zip generated)) mt.chunk_hash)) n) := by
  have hglen : generated.length
      = ((missChunks cache0 doc_id file_path env.embed_model chunks).map
          (·.1)).length := by
    rw [embedBatches_ok_length env.embed hlen _ generated hg,
      toBatches_join env.batchSize hB]
  have hhlen : (((missChunks cache0 doc_id file_path env.embed_model
      chunks).map (metaOf doc_id file_path env.embed_model)).map
        (·.chunk_hash)).length ≤ generated.length := by
    simp only [List.length_map] at *
    omega
  have hfst : (((((missChunks cache0 doc_id file_path env.embed_model
      chunks).map (metaOf doc_id file_path env.embed_model)).map
        (·.chunk_hash)).zip generated).map Prod.fst)
      = (((missChunks cache0 doc_id file_path env.embed_model chunks).map
          (metaOf doc_id file_path env.embed_model)).map (·.chunk_hash)) :=
    List.map_fst_zip _ _ hhlen
  have hpre : ∀ mt ∈ chunks.map (metaOf doc_id file_path env.embed_model),
      cache0 mt.chunk_hash = none ↔
        (dictLookup mt.chunk_hash
          (buildMap ((((missChunks cache0 doc_id file_path env.embed_model
            chunks).map (metaOf doc_id file_path env.embed_model)).map
              (·.chunk_hash)).zip generated))).isSome := by
    intro mt hmt
    rw [dictLookup_buildMap_isSome, hfst]
    exact miss_hash_characterization cache0 doc_id file_path env.embed_model
      chunks mt hmt
  have hmain := reassemble_spec _ cache0
    (chunks.map (metaOf doc_id file_path env.embed_model)) hpre
  rw [← hitVecs_eq_filterMap] at hmain
  refine ⟨hmain, by simp, fun i => List.getElem?_map _ _ i, ?_⟩
  have hred : ingest_document env cache0 manifest0 file_path doc_id
      = embedPhase env cache0 (ensureDoc manifest0 doc_id) file_path doc_id
          chunks := by
    simp only [ingest_document, hp, ht, Bool.false_eq_true, if_false, hc]
  rw [hred]
  have hempF : ¬ ((missChunks cache0 doc_id file_path env.embed_model
      chunks).map (·.1)).isEmpty = true := by
    simp [List.isEmpty_iff, hmiss]
  unfold embedPhase
  dsimp only
  rw [if_neg hempF, hg]
  dsimp only
  unfold mergePhase
  dsimp only
  have hnlt : ¬ ((missChunks cache0 doc_id file_path env.embed_model
      chunks).map (metaOf doc_id file_path env.embed_model)).length
        < generated.length := by
    simp only [List.length_map] at *
    omega
  rw [if_neg hnlt, hmain]
  exact ⟨_, _, rfl⟩

/-- Two chunks, the first a cache hit and the second a miss; the embedder
returns `[5]` for every text. -/
def mixedCacheEnv : Env :=
  ⟨fun _ => .ok "ab", fun _ => .ok [("a", 0, 1), ("b", 1, 2)],
    fun ts => .ok (ts.map (fun _ => [5])), fun _ => true, 64,
    "all-MiniLM-L6-v2"⟩

/-- Cache contents for the witness: the chunk starting with `a` is cached
with vector `[9]`; everything else misses. -/
def mixedCache : ChunkKey → Option Vec :=
  fun k => if k.first64 = "a" then some [9] else none

set_option maxRecDepth 8192 in
theorem reassembly_preserves_order_witness :
    reassemble
        (buildMap ((((missChunks mixedCache "d" "f.txt"
          mixedCacheEnv.embed_model [("a", 0, 1), ("b", 1, 2)]).map
            (metaOf "d" "f.txt" mixedCacheEnv.embed_model)).map
              (·.chunk_hash)).zip [[5]]))
        (([("a", 0, 1), ("b", 1, 2)] : List (String × Nat × Nat)).map
          (metaOf "d" "f.txt" mixedCacheEnv.embed_model))
        (hitVecs mixedCache "d" "f.txt" mixedCacheEnv.embed_model
          [("a", 0, 1), ("b", 1, 2)])
      = some [[9], [5]] :=
  (reassembly_preserves_order mixedCacheEnv mixedCache [] "f.txt" "d" "ab"
    [("a", 0, 1), ("b", 1, 2)] [[5]] rfl (by decide) rfl (by decide)
    (by intro ts vs h; cases h; simp) (by decide) rfl).1

end Civix
